import Mathlib

/-!
Shallow embedding of `Search_Query_Builder.py` (slack-search-generator).

The embedded parts are:
* the channel store operations `load_channels`, `save_channels`,
  `save_channel`, `delete_channel`, `update_channel`;
* the pure query construction `format_date_for_slack` and `build_query`,
  together with the constant `FILE_TYPE_MAPPING`.

Python strings are modelled by Lean `String` (a list of characters, as in
Python, where indexing and slicing act on characters).  `str.strip()` is
modelled by `pyStrip` (dropping whitespace on both ends), Python `None` by
`Option`, Python dates (`datetime.date`) by the record `PyDate`, and the
JSON file holding the channel list by `PersistedDoc`, whose parsed content
is an arbitrary JSON value (`Json`) so that corrupt non-string-array content
is representable.  `load_channels` returns in `Except`, because the
`sorted()` call sits inside a `try` that catches only `json.JSONDecodeError`
and `IOError`: a `TypeError` raised while comparing unorderable elements
escapes.  Write I/O always succeeds in the model (the `IOError` branch of
`save_channels` is an unreachable state of the embedding), so each store
mutation is a function from the current file content to a result paired with
the new file content; the mutations act on string-array states, the only
shape the store itself writes.
-/

namespace SlackSearch

/-- Python `str.strip()` (restricted to ASCII whitespace): remove leading and
trailing whitespace characters. -/
def pyStrip (s : String) : String :=
  ⟨((s.data.dropWhile Char.isWhitespace).reverse.dropWhile Char.isWhitespace).reverse⟩

/-- Python `s.startswith(c)` for a single-character c: test the first character. -/
def startsWithChar (s : String) (c : Char) : Bool :=
  match s.data with
  | [] => false
  | a :: _ => a == c

/-- Python `s[1:]` on a string: drop the first character. -/
def pyDropFirst (s : String) : String :=
  ⟨s.data.drop 1⟩

/-- Lexicographic comparison of character sequences by code point, the order
Python uses to compare strings. -/
def charListLeb : List Char → List Char → Bool
  | [], _ => true
  | _ :: _, [] => false
  | a :: as, b :: bs =>
    if a.toNat < b.toNat then true
    else if b.toNat < a.toNat then false
    else charListLeb as bs

/-- Strict lexicographic comparison of character sequences by code point:
Python `a < b` on strings. -/
def charListLtb : List Char → List Char → Bool
  | [], [] => false
  | [], _ :: _ => true
  | _ :: _, [] => false
  | a :: as, b :: bs =>
    if a.toNat < b.toNat then true
    else if b.toNat < a.toNat then false
    else charListLtb as bs

/-- Python `a <= b` on strings (lexicographic by code point). -/
def strLeb (a b : String) : Bool :=
  charListLeb a.data b.data

/-- The string order as a relation, for sortedness statements. -/
def strLe (a b : String) : Prop :=
  strLeb a b = true

instance : DecidableRel strLe :=
  fun a b => Bool.decEq (strLeb a b) true

/-- Python `sorted` on a list of strings: sort ascending by the (total)
lexicographic code-point order on strings. -/
def sortStr (l : List String) : List String :=
  List.insertionSort strLe l

/-- A Python `datetime.date`: a naive calendar date.  (`datetime.date`
guarantees `1 ≤ month ≤ 12`; here the fields are plain numbers and theorems
that need it take the month bound as a hypothesis.) -/
structure PyDate where
  year : Nat
  month : Nat
  day : Nat
deriving DecidableEq, Repr

/-- Zero-pad a number to at least two digits: `strftime` field `%m` / `%d`. -/
def pad2 (n : Nat) : String :=
  if 2 ≤ (toString n).length then toString n
  else ⟨List.replicate (2 - (toString n).length) '0' ++ (toString n).data⟩

/-- Zero-pad a number to at least four digits: `strftime` field `%Y`. -/
def pad4 (n : Nat) : String :=
  if 4 ≤ (toString n).length then toString n
  else ⟨List.replicate (4 - (toString n).length) '0' ++ (toString n).data⟩

/-- `date_obj.strftime("%Y-%m-%d")`: the ISO calendar date. -/
def isoDate (d : PyDate) : String :=
  pad4 d.year ++ "-" ++ pad2 d.month ++ "-" ++ pad2 d.day

/-- The `month_names` list from the `"Month"` branch of `format_date_for_slack`. -/
def monthNames : List String :=
  ["January", "February", "March", "April", "May", "June",
   "July", "August", "September", "October", "November", "December"]

/-- `format_date_for_slack(date_obj, format_type, is_today, is_yesterday)`.
Python's `month_names[date_obj.month - 1]` is modelled with `List.getD`
(the index is in range for every real `datetime.date`). -/
def format_date_for_slack (date_obj : Option PyDate) (format_type : String)
    (is_today : Bool) (is_yesterday : Bool) : Option String :=
  if is_today then some "today"
  else if is_yesterday then some "yesterday"
  else
    match date_obj with
    | none => none
    | some d =>
      if format_type = "Full Date" then some (isoDate d)
      else if format_type = "Month" then some (monthNames.getD (d.month - 1) "")
      else if format_type = "Year" then some (pad4 d.year)
      else some (isoDate d)

/-- `FILE_TYPE_MAPPING`, as an association list in source order. -/
def fileTypeMapping : List (String × String) :=
  [("PDF", "has:pdf"),
   ("Image", "has:image"),
   ("Snippet", "has:snippet"),
   ("GDoc", "has:gdoc"),
   ("Spreadsheet", "has:spreadsheet")]

/-!  ## The channel store  -/

/-- A parsed JSON value, the possible result of `json.load`.  JSON numbers
are modelled as integers (floating-point literals are out of scope of the
embedding; integers cover the corrupt-content analysis). -/
inductive Json where
  | null : Json
  | bool (b : Bool) : Json
  | num (n : Int) : Json
  | str (s : String) : Json
  | arr (items : List Json) : Json
  | obj (fields : List (String × Json)) : Json

/-- Python treats booleans as the integers 1 and 0 in comparisons. -/
def boolInt (b : Bool) : Int :=
  if b then 1 else 0

mutual

/-- Python `a == b` on parsed JSON values: equality never raises; booleans
equal their numeric value; lists compare elementwise; objects (dicts)
compare by their fields (modelled with fields in parse order). -/
def pyEq : Json → Json → Bool
  | .null, .null => true
  | .bool a, .bool b => a == b
  | .bool a, .num b => boolInt a == b
  | .num a, .bool b => a == boolInt b
  | .num a, .num b => a == b
  | .str a, .str b => a == b
  | .arr as, .arr bs => pyEqList as bs
  | .obj fs, .obj gs => pyEqFields fs gs
  | _, _ => false

def pyEqList : List Json → List Json → Bool
  | [], [] => true
  | a :: as, b :: bs => pyEq a b && pyEqList as bs
  | _, _ => false

def pyEqFields : List (String × Json) → List (String × Json) → Bool
  | [], [] => true
  | (k, v) :: fs, (l, w) :: gs => k == l && pyEq v w && pyEqFields fs gs
  | _, _ => false

end

mutual

/-- Python `a < b` on parsed JSON values: `some r` is the comparison result,
`none` is a raised `TypeError`.  Numbers (booleans included) compare by
value, strings lexicographically by code point, lists lexicographically
(skipping `==`-equal prefixes, so an element comparison can itself raise);
`None`, objects, and any cross-class pair do not support `<`. -/
def pyLt : Json → Json → Option Bool
  | .bool a, .bool b => some (decide (boolInt a < boolInt b))
  | .bool a, .num b => some (decide (boolInt a < b))
  | .num a, .bool b => some (decide (a < boolInt b))
  | .num a, .num b => some (decide (a < b))
  | .str a, .str b => some (charListLtb a.data b.data)
  | .arr as, .arr bs => pyLtList as bs
  | _, _ => none

def pyLtList : List Json → List Json → Option Bool
  | [], [] => some false
  | [], _ :: _ => some true
  | _ :: _, [] => some false
  | a :: as, b :: bs => if pyEq a b then pyLtList as bs else pyLt a b

end

/-- Whether the Python comparison `a < b` is supported (does not raise). -/
def comparableb (a b : Json) : Bool :=
  (pyLt a b).isSome

/-- Every pair of elements supports comparison. -/
def pairwiseComparable : List Json → Bool
  | [] => true
  | a :: rest => rest.all (fun b => comparableb a b) && pairwiseComparable rest

/-- The non-strict order `sorted` sorts by: `a ≤ b` iff not `b < a`
(meaningful only on comparable pairs). -/
def jsonLeb (a b : Json) : Bool :=
  match pyLt b a with
  | some true => false
  | _ => true

/-- `jsonLeb` as a relation, for `List.insertionSort`. -/
def jsonLe (a b : Json) : Prop :=
  jsonLeb a b = true

instance : DecidableRel jsonLe :=
  fun a b => Bool.decEq (jsonLeb a b) true

/-- Python `sorted` on the elements of a parsed JSON array: raises
`TypeError` (`none`) iff some pair of elements does not support `<`.  (Exact
for flat arrays: comparability partitions flat values into classes, and a
comparison sort must compare across any class boundary before it can
terminate, while a single-class array raises nowhere.  For arrays of arrays
whose element comparisons raise only for some pairs, CPython's behaviour
depends on Timsort's comparison order; this model errs toward raising.)
Otherwise it is a stable sort by `<`, which insertion sort realizes. -/
def pySorted (items : List Json) : Option (List Json) :=
  if pairwiseComparable items then some (List.insertionSort jsonLe items) else none

/-- An exception escaping `load_channels`: the `except` clause catches only
`json.JSONDecodeError` and `IOError`, so a `TypeError` raised by `sorted()`
propagates to the caller. -/
inductive PyError where
  | typeError : PyError
deriving DecidableEq, Repr

/-- The content of `data/channels.json` as found on disk. -/
inductive PersistedDoc where
  /-- The file does not exist. -/
  | absent : PersistedDoc
  /-- The file exists but raises `json.JSONDecodeError` or `IOError` on read. -/
  | unreadable : PersistedDoc
  /-- The file parses as the JSON value `j` (array or not). -/
  | parsed (j : Json) : PersistedDoc

/-- Outcome of a store operation.  The Python functions return a
`(success, message)` pair; the four message shapes are modelled by the four
constructors (`ok` covers the success message of `save_channels`). -/
inductive StoreResult where
  | ok : StoreResult
  | emptyName : StoreResult
  | duplicateName : StoreResult
  | notFound : StoreResult
deriving DecidableEq, Repr

/-- `load_channels()`: a missing or undecodable/unreadable file and content
that is not an array yield `[]`; an array is passed to `sorted`, whose
`TypeError` on unorderable elements escapes uncaught. -/
def load_channels : PersistedDoc → Except PyError (List Json)
  | .absent => .ok []
  | .unreadable => .ok []
  | .parsed (.arr items) =>
    match pySorted items with
    | some l => .ok l
    | none => .error .typeError
  | .parsed _ => .ok []

/-- The collection `load_channels()` yields when the file holds the string
array `σ` — the only shape the store itself writes (see
`load_channels_strArr` for the correspondence with `load_channels`). -/
def loadChannels (σ : List String) : List String :=
  sortStr σ

/-- `save_channels(channels_list)`: write `sorted(channels_list)`; the result
pairs the returned status with the new file content. -/
def save_channels (channels_list : List String) : StoreResult × List String :=
  (.ok, sortStr channels_list)

/-- The normalization shared by `save_channel` and `update_channel`:
`channel.strip()`, then if it starts with `#`, `channel[1:].strip()`. -/
def normalizeChannel (channel : String) : String :=
  let c := pyStrip channel
  if startsWithChar c '#' then pyStrip (pyDropFirst c) else c

/-- `save_channel(channel)` acting on file content `σ`. -/
def save_channel (channel : String) (σ : List String) : StoreResult × List String :=
  let channels := loadChannels σ
  let c := normalizeChannel channel
  if c = "" then (.emptyName, σ)
  else if c ∈ channels then (.duplicateName, σ)
  else save_channels (sortStr (channels ++ [c]))

/-- `delete_channel(channel)` acting on file content `σ`
(`channels.remove(channel)` deletes the first occurrence). -/
def delete_channel (channel : String) (σ : List String) : StoreResult × List String :=
  let channels := loadChannels σ
  if channel ∈ channels then save_channels (channels.erase channel)
  else (.notFound, σ)

/-- `channels[channels.index(old)] = new`: replace the first occurrence of
`old` by `new`. -/
def replaceFirst : List String → String → String → List String
  | [], _, _ => []
  | a :: rest, old, new => if a = old then new :: rest else a :: replaceFirst rest old new

/-- `update_channel(old_channel, new_channel)` acting on file content `σ`. -/
def update_channel (old_channel new_channel : String) (σ : List String) :
    StoreResult × List String :=
  let channels := loadChannels σ
  if old_channel ∈ channels then
    let n := normalizeChannel new_channel
    if n = "" then (.emptyName, σ)
    else if n ∈ channels ∧ n ≠ old_channel then (.duplicateName, σ)
    else save_channels (sortStr (replaceFirst channels old_channel n))
  else (.notFound, σ)

/-- A store mutation, for stating invariants over operation sequences. -/
inductive Op where
  | add (raw : String) : Op
  | remove (name : String) : Op
  | rename (old raw : String) : Op
deriving DecidableEq, Repr

/-- Run one store operation on the current file content. -/
def step (σ : List String) : Op → List String
  | .add raw => (save_channel raw σ).2
  | .remove name => (delete_channel name σ).2
  | .rename old raw => (update_channel old raw σ).2

/-- Run a sequence of store operations starting from the initial (absent
file, i.e. empty) store. -/
def runOps (ops : List Op) : List String :=
  ops.foldl step []

/-- The store invariant: the persisted collection is sorted ascending,
duplicate-free (case-sensitive exact match) and contains no empty name. -/
def StoreInv (σ : List String) : Prop :=
  List.Sorted strLe σ ∧ σ.Nodup ∧ ∀ n ∈ σ, n ≠ ""

/-!  ## The query builder  -/

/-- The argument tuple of `build_query`, bundled as a record in the order of
the source's parameter list.  Optional dates are `Option PyDate` (`None`
falsy); optional text inputs are strings (empty string falsy). -/
structure FilterSelection where
  channel : String
  from_user : String
  file_type : String
  date_enabled : Bool
  use_during : Bool
  during_date : Option PyDate
  during_date_format : String
  during_is_today : Bool
  during_is_yesterday : Bool
  start_date : Option PyDate
  start_date_format : String
  start_is_today : Bool
  start_is_yesterday : Bool
  end_date : Option PyDate
  end_date_format : String
  end_is_today : Bool
  end_is_yesterday : Bool
  keywords : String
deriving DecidableEq, Repr

/-- Contribution of the `if channel:` block of `build_query` to `query_parts`. -/
def channelToken (channel : String) : List String :=
  if channel ≠ "" then ["in:#" ++ channel] else []

/-- Contribution of the `if from_user:` block of `build_query`. -/
def fromToken (from_user : String) : List String :=
  if from_user ≠ "" then
    let user := pyStrip from_user
    let user := if user ≠ "" ∧ startsWithChar user '@' = false then "@" ++ user else user
    ["from:" ++ user]
  else []

/-- Contribution of the `if file_type and file_type in FILE_TYPE_MAPPING:`
block of `build_query`. -/
def fileToken (file_type : String) : List String :=
  if file_type ≠ "" then
    match fileTypeMapping.lookup file_type with
    | some op => [op]
    | none => []
  else []

/-- Contribution of the `during` branch of the date block of `build_query`. -/
def duringToken (s : FilterSelection) : List String :=
  if s.during_is_today || s.during_is_yesterday || s.during_date.isSome then
    match format_date_for_slack s.during_date s.during_date_format
        s.during_is_today s.during_is_yesterday with
    | some ds => if ds ≠ "" then ["during:" ++ ds] else []
    | none => []
  else []

/-- Contribution of the start-date half of the range branch of `build_query`. -/
def afterToken (s : FilterSelection) : List String :=
  if s.start_date.isSome || s.start_is_today || s.start_is_yesterday then
    match format_date_for_slack s.start_date s.start_date_format
        s.start_is_today s.start_is_yesterday with
    | some ds => if ds ≠ "" then ["after:" ++ ds] else []
    | none => []
  else []

/-- Contribution of the end-date half of the range branch of `build_query`. -/
def beforeToken (s : FilterSelection) : List String :=
  if s.end_date.isSome || s.end_is_today || s.end_is_yesterday then
    match format_date_for_slack s.end_date s.end_date_format
        s.end_is_today s.end_is_yesterday with
    | some ds => if ds ≠ "" then ["before:" ++ ds] else []
    | none => []
  else []

/-- Contribution of the whole `if date_enabled:` block of `build_query`. -/
def dateTokens (s : FilterSelection) : List String :=
  if s.date_enabled then
    if s.use_during then duringToken s
    else afterToken s ++ beforeToken s
  else []

/-- Contribution of the `if keywords:` block of `build_query`. -/
def keywordToken (keywords : String) : List String :=
  if keywords ≠ "" then
    let kc := pyStrip keywords
    if kc ≠ "" then [kc] else []
  else []

/-- `build_query(...)`: `query_parts` starts empty, each block of the source
conditionally appends its token(s) in source order, and the parts are joined
with single spaces. -/
def build_query (s : FilterSelection) : String :=
  let query_parts : List String := []
  let query_parts := query_parts ++ channelToken s.channel
  let query_parts := query_parts ++ fromToken s.from_user
  let query_parts := query_parts ++ fileToken s.file_type
  let query_parts := query_parts ++ dateTokens s
  let query_parts := query_parts ++ keywordToken s.keywords
  String.intercalate " " query_parts

/-- The all-absent selection: every text field empty, every flag false,
every date `None` (formats at their UI default `"Full Date"`). -/
def noSel : FilterSelection :=
  { channel := "", from_user := "", file_type := "", date_enabled := false,
    use_during := false, during_date := none, during_date_format := "Full Date",
    during_is_today := false, during_is_yesterday := false, start_date := none,
    start_date_format := "Full Date", start_is_today := false,
    start_is_yesterday := false, end_date := none,
    end_date_format := "Full Date", end_is_today := false,
    end_is_yesterday := false, keywords := "" }

/-!  ## Properties of the string order and of `sortStr`  -/

theorem charListLeb_total : ∀ as bs : List Char,
    charListLeb as bs = true ∨ charListLeb bs as = true
  | [], _ => Or.inl rfl
  | _ :: _, [] => Or.inr rfl
  | a :: as, b :: bs => by
    by_cases hab : a.toNat < b.toNat
    · left
      simp [charListLeb, hab]
    · by_cases hba : b.toNat < a.toNat
      · right
        simp [charListLeb, hba]
      · rcases charListLeb_total as bs with h | h
        · left
          simp [charListLeb, hab, hba, h]
        · right
          simp [charListLeb, hab, hba, h]

theorem charListLeb_trans : ∀ as bs cs : List Char,
    charListLeb as bs = true → charListLeb bs cs = true → charListLeb as cs = true
  | [], _, _, _, _ => rfl
  | _ :: _, [], _, h1, _ => by simp [charListLeb] at h1
  | _ :: _, _ :: _, [], _, h2 => by simp [charListLeb] at h2
  | a :: as, b :: bs, c :: cs, h1, h2 => by
    simp only [charListLeb] at h1 h2 ⊢
    split_ifs at h1 h2 ⊢ <;> first
      | rfl
      | omega
      | exact charListLeb_trans as bs cs h1 h2

theorem charListLeb_antisymm : ∀ as bs : List Char,
    charListLeb as bs = true → charListLeb bs as = true → as = bs
  | [], [], _, _ => rfl
  | [], _ :: _, _, h2 => by simp [charListLeb] at h2
  | _ :: _, [], h1, _ => by simp [charListLeb] at h1
  | a :: as, b :: bs, h1, h2 => by
    simp only [charListLeb] at h1 h2
    split_ifs at h1 h2 <;> first
      | omega
      | (have hn : a.toNat = b.toNat := by omega
         exact congrArg₂ (· :: ·) (Char.ext (UInt32.ext hn))
           (charListLeb_antisymm as bs h1 h2))

instance : IsTotal String strLe :=
  ⟨fun a b => charListLeb_total a.data b.data⟩

instance : IsTrans String strLe :=
  ⟨fun a b c => charListLeb_trans a.data b.data c.data⟩

instance : IsAntisymm String strLe :=
  ⟨fun a b h1 h2 => congrArg String.mk (charListLeb_antisymm a.data b.data h1 h2)⟩

theorem charListLeb_eq_not_ltb : ∀ as bs : List Char,
    charListLeb as bs = !(charListLtb bs as)
  | [], [] => rfl
  | [], _ :: _ => rfl
  | _ :: _, [] => rfl
  | a :: as, b :: bs => by
    simp only [charListLeb, charListLtb]
    split_ifs <;> first
      | rfl
      | omega
      | exact charListLeb_eq_not_ltb as bs

theorem sortStr_perm (l : List String) : (sortStr l).Perm l :=
  List.perm_insertionSort strLe l

theorem sortStr_sorted (l : List String) : List.Sorted strLe (sortStr l) :=
  List.sorted_insertionSort strLe l

theorem mem_sortStr {a : String} {l : List String} : a ∈ sortStr l ↔ a ∈ l :=
  (sortStr_perm l).mem_iff

theorem sortStr_nodup {l : List String} (h : l.Nodup) : (sortStr l).Nodup :=
  ((sortStr_perm l).nodup_iff).mpr h

/-!  ## Properties of `replaceFirst`  -/

theorem replaceFirst_self : ∀ (l : List String) (x : String), replaceFirst l x x = l
  | [], _ => rfl
  | a :: rest, x => by
    by_cases h : a = x
    · simp [replaceFirst, h]
    · simp [replaceFirst, h, replaceFirst_self rest x]

theorem replaceFirst_perm : ∀ (l : List String) (old new : String), old ∈ l →
    (replaceFirst l old new).Perm (new :: l.erase old)
  | [], _, _, h => absurd h (List.not_mem_nil _)
  | a :: rest, old, new, h => by
    by_cases ha : a = old
    · subst ha
      simp [replaceFirst, List.erase_cons_head]
    · have hrest : old ∈ rest := by
        rcases List.mem_cons.mp h with h' | h'
        · exact absurd h'.symm ha
        · exact h'
      have := replaceFirst_perm rest old new hrest
      simp only [replaceFirst, if_neg ha]
      rw [List.erase_cons_tail]
      · exact (this.cons a).trans (List.Perm.swap new a _)
      · simp [ha]

/-!  ## Properties of the JSON load path  -/

theorem jsonLeb_str (a b : String) : jsonLeb (.str a) (.str b) = strLeb a b := by
  unfold jsonLeb
  have hlt : pyLt (.str b) (.str a) = some (charListLtb b.data a.data) := rfl
  rw [hlt]
  have hle : strLeb a b = !(charListLtb b.data a.data) :=
    charListLeb_eq_not_ltb a.data b.data
  rw [hle]
  cases charListLtb b.data a.data <;> rfl

theorem orderedInsert_map_str (a : String) : ∀ l : List String,
    List.orderedInsert jsonLe (.str a) (l.map .str) =
      (List.orderedInsert strLe a l).map .str
  | [] => rfl
  | b :: t => by
    by_cases h : strLe a b
    · have h2 : jsonLe (.str a) (.str b) := by
        show jsonLeb (.str a) (.str b) = true
        rw [jsonLeb_str]
        exact h
      simp only [List.map_cons, List.orderedInsert, if_pos h, if_pos h2]
    · have h2 : ¬jsonLe (.str a) (.str b) := by
        show ¬jsonLeb (.str a) (.str b) = true
        rw [jsonLeb_str]
        exact h
      simp only [List.map_cons, List.orderedInsert, if_neg h, if_neg h2]
      rw [orderedInsert_map_str a t]

theorem insertionSort_map_str : ∀ l : List String,
    List.insertionSort jsonLe (l.map .str) = (List.insertionSort strLe l).map .str
  | [] => rfl
  | a :: t => by
    simp only [List.map_cons, List.insertionSort]
    rw [insertionSort_map_str t, orderedInsert_map_str]

theorem pairwiseComparable_map_str : ∀ σ : List String,
    pairwiseComparable (σ.map .str) = true
  | [] => rfl
  | a :: t => by
    simp only [List.map_cons, pairwiseComparable, Bool.and_eq_true]
    refine ⟨?_, pairwiseComparable_map_str t⟩
    simp only [List.all_eq_true]
    intro b hb
    obtain ⟨x, _, rfl⟩ := List.mem_map.mp hb
    rfl

theorem load_channels_strArr (σ : List String) :
    load_channels (.parsed (.arr (σ.map .str))) = .ok ((loadChannels σ).map .str) := by
  simp only [load_channels, pySorted]
  rw [if_pos (pairwiseComparable_map_str σ)]
  rw [insertionSort_map_str σ]
  rfl

/-!  ## Properties of `format_date_for_slack`  -/

theorem string_eq_of_data_eq {a b : String} (h : a.data = b.data) : a = b :=
  String.toList_inj.mp h

theorem data_append (a b : String) : (a ++ b).data = a.data ++ b.data :=
  rfl

theorem pad4_ne_empty (n : Nat) : pad4 n ≠ "" := by
  intro h
  have hd : (pad4 n).data = [] := congrArg String.data h
  revert hd
  unfold pad4
  split
  · rename_i hlen
    intro hd
    have hlen2 : 4 ≤ (toString n).data.length := hlen
    rw [hd] at hlen2
    simp at hlen2
  · rename_i hlen
    intro hd
    rcases List.append_eq_nil.mp hd with ⟨h1, _⟩
    have h0 : 4 - (toString n).length = 0 := by
      simpa using congrArg List.length h1
    omega

theorem isoDate_ne_empty (d : PyDate) : isoDate d ≠ "" := by
  intro h
  have hd : (isoDate d).data = [] := congrArg String.data h
  simp only [isoDate, data_append, List.append_eq_nil] at hd
  exact pad4_ne_empty d.year (string_eq_of_data_eq hd.1.1.1.1)

theorem monthNames_getD_ne_empty {m : Nat} (h1 : 1 ≤ m) (h12 : m ≤ 12) :
    monthNames.getD (m - 1) "" ≠ "" := by
  interval_cases m <;> decide

theorem format_ne_empty (od : Option PyDate) (ft : String) (t y : Bool)
    (h : ∀ d : PyDate, od = some d → 1 ≤ d.month ∧ d.month ≤ 12) :
    ∀ v : String, format_date_for_slack od ft t y = some v → v ≠ "" := by
  intro v hv
  unfold format_date_for_slack at hv
  by_cases ht : t = true
  · rw [if_pos ht] at hv
    injection hv with hv'
    subst hv'
    decide
  · rw [if_neg ht] at hv
    by_cases hy : y = true
    · rw [if_pos hy] at hv
      injection hv with hv'
      subst hv'
      decide
    · rw [if_neg hy] at hv
      cases od with
      | none => exact Option.noConfusion hv
      | some d =>
        split_ifs at hv <;> injection hv with hv' <;> subst hv'
        · exact isoDate_ne_empty d
        · exact monthNames_getD_ne_empty (h d rfl).1 (h d rfl).2
        · exact pad4_ne_empty d.year
        · exact isoDate_ne_empty d

theorem format_eq_none_iff (od : Option PyDate) (ft : String) (t y : Bool) :
    format_date_for_slack od ft t y = none ↔ t = false ∧ y = false ∧ od = none := by
  unfold format_date_for_slack
  cases t <;> cases y <;> cases od <;> (simp; try (split_ifs <;> simp))

/-!  ## Date tokens rewritten through the resolution function  -/

theorem duringToken_eq (s : FilterSelection)
    (h : ∀ d : PyDate, s.during_date = some d → 1 ≤ d.month ∧ d.month ≤ 12) :
    duringToken s =
      ((format_date_for_slack s.during_date s.during_date_format
          s.during_is_today s.during_is_yesterday).map (fun v => "during:" ++ v)).toList := by
  rcases hf : format_date_for_slack s.during_date s.during_date_format
      s.during_is_today s.during_is_yesterday with _ | v
  · obtain ⟨ht, hy, hod⟩ := (format_eq_none_iff _ _ _ _).mp hf
    simp [duringToken, ht, hy, hod]
  · have hv : v ≠ "" := format_ne_empty _ _ _ _ h v hf
    have hguard : (s.during_is_today || s.during_is_yesterday ||
        s.during_date.isSome) = true := by
      by_contra hg
      simp only [Bool.or_eq_true, not_or, Bool.not_eq_true] at hg
      obtain ⟨⟨ht, hy⟩, hod⟩ := hg
      have hodn : s.during_date = none := by
        cases hcase : s.during_date with
        | none => rfl
        | some d => rw [hcase] at hod; simp at hod
      rw [ht, hy, hodn] at hf
      rw [(format_eq_none_iff none (s.during_date_format) false false).mpr ⟨rfl, rfl, rfl⟩] at hf
      exact Option.noConfusion hf
    simp [duringToken, hguard, hf, hv]

theorem afterToken_eq (s : FilterSelection)
    (h : ∀ d : PyDate, s.start_date = some d → 1 ≤ d.month ∧ d.month ≤ 12) :
    afterToken s =
      ((format_date_for_slack s.start_date s.start_date_format
          s.start_is_today s.start_is_yesterday).map (fun v => "after:" ++ v)).toList := by
  rcases hf : format_date_for_slack s.start_date s.start_date_format
      s.start_is_today s.start_is_yesterday with _ | v
  · obtain ⟨ht, hy, hod⟩ := (format_eq_none_iff _ _ _ _).mp hf
    simp [afterToken, ht, hy, hod]
  · have hv : v ≠ "" := format_ne_empty _ _ _ _ h v hf
    have hguard : (s.start_date.isSome || s.start_is_today ||
        s.start_is_yesterday) = true := by
      by_contra hg
      simp only [Bool.or_eq_true, not_or, Bool.not_eq_true] at hg
      obtain ⟨⟨hod, ht⟩, hy⟩ := hg
      have hodn : s.start_date = none := by
        cases hcase : s.start_date with
        | none => rfl
        | some d => rw [hcase] at hod; simp at hod
      rw [ht, hy, hodn] at hf
      rw [(format_eq_none_iff none (s.start_date_format) false false).mpr ⟨rfl, rfl, rfl⟩] at hf
      exact Option.noConfusion hf
    simp [afterToken, hguard, hf, hv]

theorem beforeToken_eq (s : FilterSelection)
    (h : ∀ d : PyDate, s.end_date = some d → 1 ≤ d.month ∧ d.month ≤ 12) :
    beforeToken s =
      ((format_date_for_slack s.end_date s.end_date_format
          s.end_is_today s.end_is_yesterday).map (fun v => "before:" ++ v)).toList := by
  rcases hf : format_date_for_slack s.end_date s.end_date_format
      s.end_is_today s.end_is_yesterday with _ | v
  · obtain ⟨ht, hy, hod⟩ := (format_eq_none_iff _ _ _ _).mp hf
    simp [beforeToken, ht, hy, hod]
  · have hv : v ≠ "" := format_ne_empty _ _ _ _ h v hf
    have hguard : (s.end_date.isSome || s.end_is_today ||
        s.end_is_yesterday) = true := by
      by_contra hg
      simp only [Bool.or_eq_true, not_or, Bool.not_eq_true] at hg
      obtain ⟨⟨hod, ht⟩, hy⟩ := hg
      have hodn : s.end_date = none := by
        cases hcase : s.end_date with
        | none => rfl
        | some d => rw [hcase] at hod; simp at hod
      rw [ht, hy, hodn] at hf
      rw [(format_eq_none_iff none (s.end_date_format) false false).mpr ⟨rfl, rfl, rfl⟩] at hf
      exact Option.noConfusion hf
    simp [beforeToken, hguard, hf, hv]

/-!  ## Claims  -/

/-- Claim C1 (code bug, `build_query` lines 143-147): the claim states that a
`from_user` whose trimmed value is empty, or is exactly `"@"`, yields no
`from:` token.  The code instead appends the `from:` token unconditionally
once the raw `from_user` is non-empty, so an all-whitespace `from_user`
yields the dangling token `"from:"` and a bare `"@"` yields `"from:@"`. -/
theorem from_user_whitespace_bug :
    build_query { noSel with from_user := "   " } = "from:" ∧
    build_query { noSel with from_user := "@" } = "from:@" ∧
    fromToken "   " = ["from:"] ∧
    fromToken "@" = ["from:@"] := by
  decide

/-- Claim C2: `build_query` assembles, in this exact order, the channel,
from-user, file-type, date and keyword contributions, each criterion giving
at most one token (at most two for the date block: `after` then `before`),
joined by single spaces with empty contributions omitted; on
`{channel:"eng", fromUser:"bob", fileType:"PDF", keywords:"deploy"}` with the
date filter disabled it returns exactly `"in:#eng from:@bob has:pdf deploy"`,
and on the all-absent selection it returns `""`. -/
theorem build_query_token_assembly :
    (∀ s : FilterSelection,
      build_query s = String.intercalate " "
        (channelToken s.channel ++ fromToken s.from_user ++ fileToken s.file_type ++
          dateTokens s ++ keywordToken s.keywords)) ∧
    (∀ c : String, (channelToken c).length ≤ 1) ∧
    (∀ u : String, (fromToken u).length ≤ 1) ∧
    (∀ f : String, (fileToken f).length ≤ 1) ∧
    (∀ s : FilterSelection, (duringToken s).length ≤ 1) ∧
    (∀ s : FilterSelection, (afterToken s).length ≤ 1) ∧
    (∀ s : FilterSelection, (beforeToken s).length ≤ 1) ∧
    (∀ k : String, (keywordToken k).length ≤ 1) ∧
    build_query { noSel with
      channel := "eng"
      from_user := "bob"
      file_type := "PDF"
      keywords := "deploy" } = "in:#eng from:@bob has:pdf deploy" ∧
    build_query noSel = "" := by
  refine ⟨?_, ?_, ?_, ?_, ?_, ?_, ?_, ?_, by decide, by decide⟩
  · intro s
    simp [build_query]
  · intro c
    unfold channelToken
    split <;> simp
  · intro u
    unfold fromToken
    split <;> simp
  · intro f
    unfold fileToken
    split
    · rcases h : fileTypeMapping.lookup f with _ | v <;> simp [h]
    · simp
  · intro s
    unfold duringToken
    split
    · rcases h : format_date_for_slack s.during_date s.during_date_format
          s.during_is_today s.during_is_yesterday with _ | v
      · simp [h]
      · simp only [h]
        split <;> simp
    · simp
  · intro s
    unfold afterToken
    split
    · rcases h : format_date_for_slack s.start_date s.start_date_format
          s.start_is_today s.start_is_yesterday with _ | v
      · simp [h]
      · simp only [h]
        split <;> simp
    · simp
  · intro s
    unfold beforeToken
    split
    · rcases h : format_date_for_slack s.end_date s.end_date_format
          s.end_is_today s.end_is_yesterday with _ | v
      · simp [h]
      · simp only [h]
        split <;> simp
    · simp
  · intro k
    unfold keywordToken
    dsimp only
    split
    · split <;> simp
    · simp

/-- Claim C3: `format_date_for_slack` is the total resolution function which
returns `"today"` whenever `is_today` is set (`"today"` wins over
`"yesterday"`, format and date ignored), else `"yesterday"` when
`is_yesterday` is set, else `none` for a missing date, and otherwise formats
by `"Full Date"` (ISO `YYYY-MM-DD`), `"Month"` (English month name only),
`"Year"` (four-digit, zero-padded year only), with every unrecognized format
falling back to the `"Full Date"` behaviour. -/
theorem format_date_for_slack_spec (d : PyDate) (ft : String)
    (h1 : 1 ≤ d.month) (h12 : d.month ≤ 12) :
    (∀ (od : Option PyDate) (f : String) (y : Bool),
      format_date_for_slack od f true y = some "today") ∧
    (∀ (od : Option PyDate) (f : String),
      format_date_for_slack od f false true = some "yesterday") ∧
    (∀ f : String, format_date_for_slack none f false false = none) ∧
    format_date_for_slack (some d) "Full Date" false false = some (isoDate d) ∧
    (∃ hm : d.month - 1 < monthNames.length,
      format_date_for_slack (some d) "Month" false false =
        some (monthNames.get ⟨d.month - 1, hm⟩)) ∧
    format_date_for_slack (some d) "Year" false false = some (pad4 d.year) ∧
    (ft ≠ "Full Date" → ft ≠ "Month" → ft ≠ "Year" →
      format_date_for_slack (some d) ft false false = some (isoDate d)) := by
  have hm : d.month - 1 < monthNames.length := by
    simp only [monthNames, List.length_cons, List.length_nil]
    omega
  refine ⟨fun od f y => rfl, fun od f => rfl, fun f => rfl, rfl, ⟨hm, ?_⟩, rfl, ?_⟩
  · simp [format_date_for_slack, List.getD_eq_getElem, List.get_eq_getElem, hm]
  · intro hf hmn hy
    simp [format_date_for_slack, hf, hmn, hy]

/-- Witness for C3: the theorem applied at the date 2024-03-15 and the
unrecognized format string "Weird". -/
theorem format_date_for_slack_spec_witness :
    format_date_for_slack (some ⟨2024, 3, 15⟩) "Month" false false = some "March" ∧
    format_date_for_slack (some ⟨2024, 3, 15⟩) "Weird" false false =
      some "2024-03-15" := by
  have h := format_date_for_slack_spec ⟨2024, 3, 15⟩ "Weird" (by decide) (by decide)
  constructor
  · obtain ⟨hm, he⟩ := h.2.2.2.2.1
    rw [he]
    rfl
  · rw [h.2.2.2.2.2.2 (by decide) (by decide) (by decide)]
    decide

/-- Claim C9 (code bug, `load_channels` lines 26-36): the claim states that
list always returns the persisted items sorted ascending and returns the
empty sequence — never an error — when the persisted document is absent or
corrupt, including content that parses but is not an array: corruption is
swallowed.  The `except` clause catches only `json.JSONDecodeError` and
`IOError`, so the `sorted()` call raises an uncaught `TypeError` on an array
mixing element classes such as `["a", 1]` — this corruption is surfaced as a
crash, violating the claim (and the spec's own rule that malformed data must
not crash usage).  The other corruption shapes do degrade to the empty
collection, a uniformly non-string array such as `[2, 1]` is returned sorted
rather than emptied, and on the string arrays the store itself writes the
function returns them sorted ascending, as claimed. -/
theorem load_channels_type_error_bug :
    load_channels .absent = .ok [] ∧
    load_channels .unreadable = .ok [] ∧
    load_channels (.parsed .null) = .ok [] ∧
    load_channels (.parsed (.bool true)) = .ok [] ∧
    load_channels (.parsed (.num 3)) = .ok [] ∧
    load_channels (.parsed (.str "general")) = .ok [] ∧
    load_channels (.parsed (.obj [("channels", .arr [])])) = .ok [] ∧
    load_channels (.parsed (.arr [.str "a", .num 1])) = .error .typeError ∧
    load_channels (.parsed (.arr [.num 1, .str "a"])) = .error .typeError ∧
    load_channels (.parsed (.arr [.null, .null])) = .error .typeError ∧
    load_channels (.parsed (.arr [.num 2, .num 1])) = .ok [.num 1, .num 2] ∧
    load_channels (.parsed (.arr [.str "b", .str "a"])) = .ok [.str "a", .str "b"] ∧
    (∀ σ : List String, load_channels (.parsed (.arr (σ.map .str))) =
      .ok ((loadChannels σ).map .str)) ∧
    (∀ σ : List String, List.Sorted strLe (loadChannels σ)) :=
  ⟨rfl, rfl, rfl, rfl, rfl, rfl, rfl, rfl, rfl, rfl, rfl, rfl,
    load_channels_strArr, fun σ => sortStr_sorted σ⟩

/-- Claim C10: a `has:` token is produced iff `file_type` is exactly one of
the five mapping keys, mapped by the fixed table; for every other value
(including unrecognized non-empty strings) no file-type token is emitted and
the rest of the query is unchanged. -/
theorem file_type_token_spec :
    (∀ ft : String, fileToken ft ≠ [] ↔
      ft ∈ ["PDF", "Image", "Snippet", "GDoc", "Spreadsheet"]) ∧
    fileToken "PDF" = ["has:pdf"] ∧
    fileToken "Image" = ["has:image"] ∧
    fileToken "Snippet" = ["has:snippet"] ∧
    fileToken "GDoc" = ["has:gdoc"] ∧
    fileToken "Spreadsheet" = ["has:spreadsheet"] ∧
    (∀ s : FilterSelection,
      s.file_type ∉ ["PDF", "Image", "Snippet", "GDoc", "Spreadsheet"] →
      build_query s = build_query { s with file_type := "" }) := by
  have hnone : ∀ ft : String, ft ∉ ["PDF", "Image", "Snippet", "GDoc", "Spreadsheet"] →
      fileToken ft = [] := by
    intro ft hft
    simp only [List.mem_cons, List.not_mem_nil, or_false, not_or] at hft
    obtain ⟨hp, hi, hs, hg, hsp⟩ := hft
    unfold fileToken
    split
    · have e1 : (ft == "PDF") = false := beq_eq_false_iff_ne.mpr hp
      have e2 : (ft == "Image") = false := beq_eq_false_iff_ne.mpr hi
      have e3 : (ft == "Snippet") = false := beq_eq_false_iff_ne.mpr hs
      have e4 : (ft == "GDoc") = false := beq_eq_false_iff_ne.mpr hg
      have e5 : (ft == "Spreadsheet") = false := beq_eq_false_iff_ne.mpr hsp
      have hl : fileTypeMapping.lookup ft = none := by
        simp [fileTypeMapping, List.lookup, e1, e2, e3, e4, e5]
      simp [hl]
    · rfl
  refine ⟨?_, rfl, rfl, rfl, rfl, rfl, ?_⟩
  · intro ft
    constructor
    · intro hne
      by_contra hmem
      exact hne (hnone ft hmem)
    · intro hmem
      have hc : ft = "PDF" ∨ ft = "Image" ∨ ft = "Snippet" ∨ ft = "GDoc" ∨
          ft = "Spreadsheet" := by simpa using hmem
      rcases hc with rfl | rfl | rfl | rfl | rfl <;> decide
  · intro s hft
    have h0 : fileToken s.file_type = [] := hnone _ hft
    simp only [build_query]
    rw [h0]
    rfl

/-- Witness for C10: the theorem applied at a selection carrying the
unrecognized file type "Video". -/
theorem file_type_token_spec_witness :
    build_query { noSel with channel := "eng", file_type := "Video" } =
      build_query { { noSel with channel := "eng", file_type := "Video" } with file_type := "" } :=
  file_type_token_spec.2.2.2.2.2.2 { noSel with channel := "eng", file_type := "Video" } (by decide)

/-!  ## Store invariant preservation  -/

theorem storeInv_sortStr {l m : List String} (hp : l.Perm m) (hnd : m.Nodup)
    (hne : ∀ n ∈ m, n ≠ "") : StoreInv (sortStr l) := by
  refine ⟨sortStr_sorted l, ?_, ?_⟩
  · exact ((sortStr_perm l).trans hp).nodup_iff.mpr hnd
  · intro n hn
    exact hne n (((sortStr_perm l).trans hp).mem_iff.mp hn)

theorem storeInv_step {σ : List String} (h : StoreInv σ) (op : Op) :
    StoreInv (step σ op) := by
  obtain ⟨hs, hd, hne⟩ := h
  cases op with
  | add raw =>
    show StoreInv (save_channel raw σ).2
    unfold save_channel save_channels
    dsimp only
    split_ifs with hc hm
    · exact ⟨hs, hd, hne⟩
    · exact ⟨hs, hd, hne⟩
    · have hp : (sortStr (loadChannels σ ++ [normalizeChannel raw])).Perm
          (normalizeChannel raw :: σ) :=
        (sortStr_perm _).trans
          (((sortStr_perm σ).append_right [normalizeChannel raw]).trans
            (List.perm_append_singleton _ _))
      refine storeInv_sortStr hp (List.nodup_cons.mpr ⟨?_, hd⟩) ?_
      · exact fun hx => hm (mem_sortStr.mpr hx)
      · intro n hn
        rcases List.mem_cons.mp hn with rfl | hmem
        · exact hc
        · exact hne n hmem
  | remove name =>
    show StoreInv (delete_channel name σ).2
    unfold delete_channel save_channels
    dsimp only
    split_ifs with hm
    · refine storeInv_sortStr ((sortStr_perm σ).erase name) (hd.erase name) ?_
      intro n hn
      exact hne n (List.mem_of_mem_erase hn)
    · exact ⟨hs, hd, hne⟩
  | rename old raw =>
    show StoreInv (update_channel old raw σ).2
    unfold update_channel save_channels
    dsimp only
    split_ifs with hold hemp hdup
    · exact ⟨hs, hd, hne⟩
    · exact ⟨hs, hd, hne⟩
    · have hp : (sortStr (replaceFirst (loadChannels σ) old
          (normalizeChannel raw))).Perm (normalizeChannel raw :: σ.erase old) :=
        (sortStr_perm _).trans
          ((replaceFirst_perm _ _ _ hold).trans
            (((sortStr_perm σ).erase old).cons _))
      refine storeInv_sortStr hp (List.nodup_cons.mpr ⟨?_, hd.erase old⟩) ?_
      · intro hx
        by_cases hno : normalizeChannel raw = old
        · rw [hno] at hx
          exact ((hd.mem_erase_iff).mp hx).1 rfl
        · exact hdup ⟨mem_sortStr.mpr (List.mem_of_mem_erase hx), hno⟩
      · intro n hn
        rcases List.mem_cons.mp hn with rfl | hmem
        · exact hemp
        · exact hne n (List.mem_of_mem_erase hmem)
    · exact ⟨hs, hd, hne⟩

/-- Claim C5 counterexample: the claim also asserts that no persisted name
starts with `#`, but the normalization strips only one leading `#`, so
adding `"##general"` to the empty store persists the name `"#general"`,
which starts with `#`. -/
theorem store_invariant_counterexample :
    runOps [Op.add "##general"] = ["#general"] ∧
    startsWithChar "#general" '#' = true := by
  decide

/-- Claim C5 (amended): across every sequence of add, remove and rename
operations from the initial store, the persisted collection stays sorted
ascending, free of duplicates (case-sensitive exact match) and free of empty
names.  (A persisted name can still begin with `#`: only one leading `#` is
stripped on input, see the counterexample.) -/
theorem store_invariant_amended (ops : List Op) :
    List.Sorted strLe (runOps ops) ∧ (runOps ops).Nodup ∧
    ∀ n ∈ runOps ops, n ≠ "" := by
  have h : ∀ (l : List Op) (σ : List String), StoreInv σ → StoreInv (l.foldl step σ) := by
    intro l
    induction l with
    | nil => exact fun σ h => h
    | cons op rest ih => exact fun σ h => ih (step σ op) (storeInv_step h op)
  exact h ops [] ⟨List.sorted_nil, List.nodup_nil, by simp⟩

/-- Witness for the amended C5 theorem, applied to the singleton history
`[add "general"]`. -/
theorem store_invariant_amended_witness :
    ("general" : String) ≠ "" ∧ List.Sorted strLe (runOps [Op.add "general"]) := by
  have h := store_invariant_amended [Op.add "general"]
  exact ⟨h.2.2 "general" (by decide), h.1⟩

/-- Claim C6: `save_channel` trims, strips one leading `#` (and whitespace
after it), fails with the empty-name error iff the normalized name is empty,
fails with the duplicate error iff the normalized name is already present
(case-sensitive), and otherwise inserts the normalized name and persists the
sorted collection; `""`, `"   "` and `"#"` all fail, and `"#general"` and
`"general"` store the same item `"general"`. -/
theorem save_channel_spec (raw : String) (σ : List String) :
    ((save_channel raw σ).1 = StoreResult.emptyName ↔ normalizeChannel raw = "") ∧
    ((save_channel raw σ).1 = StoreResult.duplicateName ↔
      normalizeChannel raw ≠ "" ∧ normalizeChannel raw ∈ σ) ∧
    ((save_channel raw σ).1 = StoreResult.ok ↔
      normalizeChannel raw ≠ "" ∧ normalizeChannel raw ∉ σ) ∧
    ((save_channel raw σ).1 ≠ StoreResult.ok → (save_channel raw σ).2 = σ) ∧
    ((save_channel raw σ).1 = StoreResult.ok →
      (save_channel raw σ).2.Perm (normalizeChannel raw :: σ) ∧
      List.Sorted strLe (save_channel raw σ).2) ∧
    save_channel "" σ = (StoreResult.emptyName, σ) ∧
    save_channel "   " σ = (StoreResult.emptyName, σ) ∧
    save_channel "#" σ = (StoreResult.emptyName, σ) ∧
    save_channel "#general" [] = (StoreResult.ok, ["general"]) ∧
    save_channel "general" [] = (StoreResult.ok, ["general"]) := by
  by_cases hc : normalizeChannel raw = ""
  · have hres : save_channel raw σ = (StoreResult.emptyName, σ) := by
      unfold save_channel
      dsimp only
      rw [if_pos hc]
    refine ⟨?_, ?_, ?_, ?_, ?_, rfl, rfl, rfl, by decide, by decide⟩
    · rw [hres]; simp [hc]
    · rw [hres]; simp [hc]
    · rw [hres]; simp [hc]
    · intro _; rw [hres]
    · intro hx; rw [hres] at hx; exact absurd hx (by simp)
  · by_cases hm : normalizeChannel raw ∈ loadChannels σ
    · have hm2 : normalizeChannel raw ∈ σ := mem_sortStr.mp hm
      have hres : save_channel raw σ = (StoreResult.duplicateName, σ) := by
        unfold save_channel
        dsimp only
        rw [if_neg hc, if_pos hm]
      refine ⟨?_, ?_, ?_, ?_, ?_, rfl, rfl, rfl, by decide, by decide⟩
      · rw [hres]; simp [hc]
      · rw [hres]; simp [hc, hm2]
      · rw [hres]; simp [hm2]
      · intro _; rw [hres]
      · intro hx; rw [hres] at hx; exact absurd hx (by simp)
    · have hm2 : normalizeChannel raw ∉ σ := fun hx => hm (mem_sortStr.mpr hx)
      have hres : save_channel raw σ =
          (StoreResult.ok, sortStr (sortStr (loadChannels σ ++ [normalizeChannel raw]))) := by
        unfold save_channel save_channels
        dsimp only
        rw [if_neg hc, if_neg hm]
      have hp : (sortStr (sortStr (loadChannels σ ++ [normalizeChannel raw]))).Perm
          (normalizeChannel raw :: σ) :=
        (sortStr_perm _).trans ((sortStr_perm _).trans
          (((sortStr_perm σ).append_right [normalizeChannel raw]).trans
            (List.perm_append_singleton _ _)))
      refine ⟨?_, ?_, ?_, ?_, ?_, rfl, rfl, rfl, by decide, by decide⟩
      · rw [hres]; simp [hc]
      · rw [hres]; simp [hm2]
      · rw [hres]; simp [hc, hm2]
      · intro hx; rw [hres] at hx; exact absurd rfl hx
      · intro _; rw [hres]; exact ⟨hp, sortStr_sorted _⟩

/-- Witness for C6, applied at a duplicate insertion. -/
theorem save_channel_spec_witness :
    (save_channel "general" ["general"]).1 = StoreResult.duplicateName := by
  have h := save_channel_spec "general" ["general"]
  exact (h.2.1).mpr ⟨by decide, by decide⟩

/-- Claim C8: `delete_channel` fails with the not-found error iff the name is
absent (exact match), leaving the file untouched, and otherwise removes
exactly that item and persists the remainder sorted. -/
theorem delete_channel_spec (name : String) (σ : List String) :
    ((delete_channel name σ).1 = StoreResult.notFound ↔ name ∉ σ) ∧
    (name ∉ σ → delete_channel name σ = (StoreResult.notFound, σ)) ∧
    (name ∈ σ → (delete_channel name σ).1 = StoreResult.ok ∧
      (delete_channel name σ).2.Perm (σ.erase name) ∧
      List.Sorted strLe (delete_channel name σ).2) := by
  by_cases hm : name ∈ loadChannels σ
  · have hm2 : name ∈ σ := mem_sortStr.mp hm
    have hres : delete_channel name σ =
        (StoreResult.ok, sortStr ((loadChannels σ).erase name)) := by
      unfold delete_channel save_channels
      dsimp only
      rw [if_pos hm]
    refine ⟨?_, fun hx => absurd hm2 hx, fun _ => ⟨?_, ?_, ?_⟩⟩
    · rw [hres]; simp [hm2]
    · rw [hres]
    · rw [hres]
      exact (sortStr_perm _).trans ((sortStr_perm σ).erase name)
    · rw [hres]
      exact sortStr_sorted _
  · have hm2 : name ∉ σ := fun hx => hm (mem_sortStr.mpr hx)
    have hres : delete_channel name σ = (StoreResult.notFound, σ) := by
      unfold delete_channel
      dsimp only
      rw [if_neg hm]
    refine ⟨?_, fun _ => hres, fun hx => absurd hx hm2⟩
    rw [hres]
    simp [hm2]

/-- Witness for C8: a miss on `"b"` and a hit on `"a"` against the store
`["a"]`. -/
theorem delete_channel_spec_witness :
    delete_channel "b" ["a"] = (StoreResult.notFound, ["a"]) ∧
    (delete_channel "a" ["a"]).1 = StoreResult.ok := by
  have h1 := delete_channel_spec "b" ["a"]
  have h2 := delete_channel_spec "a" ["a"]
  exact ⟨h1.2.1 (by decide), (h2.2.2 (by decide)).1⟩

/-- Claim C7 counterexample: the claim asserts `rename(x, x)` always succeeds
as a no-op for every stored name `x`.  The store `["#a", "a"]` is reachable
(add `"##a"`, then add `"a"`), yet `rename("#a", "#a")` renormalizes the new
name to `"a"` and fails with the duplicate error; and on the store `["#a"]`
the same rename succeeds but changes the stored name to `"a"`. -/
theorem rename_self_counterexample :
    runOps [Op.add "##a", Op.add "a"] = ["#a", "a"] ∧
    (update_channel "#a" "#a" ["#a", "a"]).1 = StoreResult.duplicateName ∧
    update_channel "#a" "#a" ["#a"] = (StoreResult.ok, ["a"]) := by
  decide

/-- Claim C7 (amended): `update_channel` fails with not-found iff the old
name is absent (file untouched); otherwise it normalizes the new name like
`save_channel`, fails with the empty-name error iff the normalized name is
empty, fails with the duplicate error iff the normalized name already exists
among the items other than the old name, and otherwise replaces the old name
and persists sorted.  `rename(x, x)` succeeds as a no-op for every stored
non-empty name `x` that is fixed by normalization (in particular for every
name not beginning with `#`); a stored name still carrying a leading `#` is
renormalized instead (see the counterexample). -/
theorem update_channel_spec (old raw : String) (σ : List String) (hnd : σ.Nodup) :
    ((update_channel old raw σ).1 = StoreResult.notFound ↔ old ∉ σ) ∧
    (old ∉ σ → update_channel old raw σ = (StoreResult.notFound, σ)) ∧
    (old ∈ σ → ((update_channel old raw σ).1 = StoreResult.emptyName ↔
      normalizeChannel raw = "")) ∧
    (old ∈ σ → ((update_channel old raw σ).1 = StoreResult.duplicateName ↔
      normalizeChannel raw ≠ "" ∧ normalizeChannel raw ∈ σ.erase old)) ∧
    (old ∈ σ → normalizeChannel raw ≠ "" → normalizeChannel raw ∉ σ.erase old →
      (update_channel old raw σ).1 = StoreResult.ok ∧
      (update_channel old raw σ).2.Perm (normalizeChannel raw :: σ.erase old) ∧
      List.Sorted strLe (update_channel old raw σ).2) ∧
    ((update_channel old raw σ).1 ≠ StoreResult.ok → (update_channel old raw σ).2 = σ) ∧
    (old ∈ σ → old ≠ "" → normalizeChannel old = old → List.Sorted strLe σ →
      update_channel old old σ = (StoreResult.ok, σ)) := by
  have hnoop : old ∈ σ → old ≠ "" → normalizeChannel old = old →
      List.Sorted strLe σ → update_channel old old σ = (StoreResult.ok, σ) := by
    intro hold hne0 hfix hsort
    have hold2 : old ∈ loadChannels σ := mem_sortStr.mpr hold
    have hdup2 : ¬(old ∈ loadChannels σ ∧ old ≠ old) := fun hx => hx.2 rfl
    unfold update_channel save_channels
    dsimp only
    rw [if_pos hold2, hfix, if_neg hne0, if_neg hdup2, replaceFirst_self]
    have hid : sortStr (sortStr (loadChannels σ)) = σ :=
      List.eq_of_perm_of_sorted
        ((sortStr_perm _).trans ((sortStr_perm _).trans (sortStr_perm σ)))
        (sortStr_sorted _) hsort
    rw [hid]
  by_cases hold : old ∈ loadChannels σ
  · have hold2 : old ∈ σ := mem_sortStr.mp hold
    by_cases hemp : normalizeChannel raw = ""
    · have hres : update_channel old raw σ = (StoreResult.emptyName, σ) := by
        unfold update_channel
        dsimp only
        rw [if_pos hold, if_pos hemp]
      refine ⟨?_, fun hx => absurd hold2 hx, fun _ => ?_, fun _ => ?_, ?_, ?_, hnoop⟩
      · rw [hres]; simp [hold2]
      · rw [hres]; simp [hemp]
      · rw [hres]; simp [hemp]
      · intro _ hne _
        exact absurd hemp hne
      · intro _; rw [hres]
    · by_cases hdup : normalizeChannel raw ∈ loadChannels σ ∧ normalizeChannel raw ≠ old
      · have hdup2 : normalizeChannel raw ∈ σ.erase old :=
          (hnd.mem_erase_iff).mpr ⟨hdup.2, mem_sortStr.mp hdup.1⟩
        have hres : update_channel old raw σ = (StoreResult.duplicateName, σ) := by
          unfold update_channel
          dsimp only
          rw [if_pos hold, if_neg hemp, if_pos hdup]
        refine ⟨?_, fun hx => absurd hold2 hx, fun _ => ?_, fun _ => ?_, ?_, ?_, hnoop⟩
        · rw [hres]; simp [hold2]
        · rw [hres]; simp [hemp]
        · rw [hres]; simp [hemp, hdup2]
        · intro _ _ hnin
          exact absurd hdup2 hnin
        · intro _; rw [hres]
      · have hres : update_channel old raw σ = (StoreResult.ok,
            sortStr (sortStr (replaceFirst (loadChannels σ) old (normalizeChannel raw)))) := by
          unfold update_channel save_channels
          dsimp only
          rw [if_pos hold, if_neg hemp, if_neg hdup]
        have hp : (sortStr (sortStr (replaceFirst (loadChannels σ) old
            (normalizeChannel raw)))).Perm (normalizeChannel raw :: σ.erase old) :=
          (sortStr_perm _).trans ((sortStr_perm _).trans
            ((replaceFirst_perm _ _ _ hold).trans
              (((sortStr_perm σ).erase old).cons _)))
        refine ⟨?_, fun hx => absurd hold2 hx, fun _ => ?_, fun _ => ?_, ?_, ?_, hnoop⟩
        · rw [hres]; simp [hold2]
        · rw [hres]; simp [hemp]
        · rw [hres]
          constructor
          · intro hx
            exact absurd hx (by simp)
          · rintro ⟨_, hx⟩
            obtain ⟨hxo, hxs⟩ := (hnd.mem_erase_iff).mp hx
            exact absurd ⟨mem_sortStr.mpr hxs, hxo⟩ hdup
        · intro _ _ _
          rw [hres]
          exact ⟨rfl, hp, sortStr_sorted _⟩
        · intro hx
          rw [hres] at hx
          exact absurd rfl hx
  · have hold2 : old ∉ σ := fun hx => hold (mem_sortStr.mpr hx)
    have hres : update_channel old raw σ = (StoreResult.notFound, σ) := by
      unfold update_channel
      dsimp only
      rw [if_neg hold]
    refine ⟨?_, fun _ => hres, fun hx => absurd hx hold2, fun hx => absurd hx hold2,
      fun hx => absurd hx hold2, ?_, fun hx => absurd hx hold2⟩
    · rw [hres]; simp [hold2]
    · intro _; rw [hres]

/-- Witness for the amended C7 theorem: a successful no-op rename on `["a"]`. -/
theorem update_channel_spec_witness :
    update_channel "a" "a" ["a"] = (StoreResult.ok, ["a"]) := by
  have h := update_channel_spec "a" "x" ["a"] (by decide)
  exact h.2.2.2.2.2.2 (by decide) (by decide) (by decide) (by decide)

/-- Claim C4: date tokens are emitted only when the date filter is enabled
(when disabled, no `during:`/`after:`/`before:` token appears even if slot
values are populated); when enabled in the during mode exactly one
`during:<resolved>` token is emitted iff the single slot resolves non-null,
and in the range mode an `after:<resolved>` token is emitted iff the start
slot resolves non-null and a `before:<resolved>` token iff the end slot
resolves non-null, each independently. -/
theorem date_tokens_spec (s : FilterSelection)
    (hdur : ∀ d : PyDate, s.during_date = some d → 1 ≤ d.month ∧ d.month ≤ 12)
    (hstart : ∀ d : PyDate, s.start_date = some d → 1 ≤ d.month ∧ d.month ≤ 12)
    (hend : ∀ d : PyDate, s.end_date = some d → 1 ≤ d.month ∧ d.month ≤ 12) :
    (s.date_enabled = false → dateTokens s = []) ∧
    (s.date_enabled = true → s.use_during = true →
      dateTokens s = ((format_date_for_slack s.during_date s.during_date_format
        s.during_is_today s.during_is_yesterday).map (fun v => "during:" ++ v)).toList) ∧
    (s.date_enabled = true → s.use_during = false →
      dateTokens s =
        ((format_date_for_slack s.start_date s.start_date_format
          s.start_is_today s.start_is_yesterday).map (fun v => "after:" ++ v)).toList ++
        ((format_date_for_slack s.end_date s.end_date_format
          s.end_is_today s.end_is_yesterday).map (fun v => "before:" ++ v)).toList) ∧
    build_query { noSel with
        date_enabled := true
        end_date := some ⟨2024, 3, 1⟩
        end_date_format := "Month" } = "before:March" ∧
    build_query { noSel with start_date := some ⟨2024, 3, 1⟩ } = "" := by
  refine ⟨?_, ?_, ?_, by decide, by decide⟩
  · intro he
    simp [dateTokens, he]
  · intro he hu
    have h1 := duringToken_eq s hdur
    simp [dateTokens, he, hu, h1]
  · intro he hu
    have h1 := afterToken_eq s hstart
    have h2 := beforeToken_eq s hend
    simp [dateTokens, he, hu, h1, h2]

/-- Witness for C4, applied at the range selection whose only populated slot
is an end date of March 2024 in month format. -/
theorem date_tokens_spec_witness :
    dateTokens { noSel with
        date_enabled := true
        end_date := some ⟨2024, 3, 1⟩
        end_date_format := "Month" } = ["before:March"] := by
  have h := date_tokens_spec
    { noSel with
        date_enabled := true
        end_date := some ⟨2024, 3, 1⟩
        end_date_format := "Month" }
    (fun d hd => by simp [noSel] at hd)
    (fun d hd => by simp [noSel] at hd)
    (fun d hd => by
      have hd2 : some (⟨2024, 3, 1⟩ : PyDate) = some d := hd
      injection hd2 with h2
      rw [← h2]
      exact ⟨by decide, by decide⟩)
  exact (h.2.2.1 rfl rfl).trans (by decide)

end SlackSearch
